import Mathlib

/-!
Verification development for the Finding Friends score tracker
(`src/src/App.jsx`, with a second copy of the scoring function in
`src/unnamed/part_001`).

Conventions of the shallow embedding:
* JavaScript numbers are modelled exactly: integers as `Int`/`Nat`, fractional
  score values as `Rat`.  Every numeric literal appearing in the source
  (`1.5`, `0.75`, `0.5`) is exactly representable in binary floating point and
  all winning-branch intermediates are exact, so the rational model coincides
  with the float semantics on the studied ranges.
* `Math.round` (round half toward positive infinity) is `jsRound`.
* A JavaScript object used as a string-keyed map is an association list
  (`List (String × β)`): assignment to an existing key updates it in place,
  assignment to a fresh key appends, matching JS property insertion order.
* `Array.prototype.sort` with a consistent comparator is required by the
  ECMAScript spec to be a stable sort; it is modelled by the stable
  `List.insertionSort`.
-/

namespace FindingFriends

/-- JavaScript `Math.round`: rounds half toward positive infinity. -/
def jsRound (q : ℚ) : ℤ := ⌊q + 1/2⌋

/-- JavaScript `x.toFixed(0)` for the values rendered by the app
(rounds ties away from the smaller integer, as `Math.round` does on
the nonnegative values that occur here). -/
def toFixed0 (q : ℚ) : String := toString (jsRound q)

/-- JavaScript object property assignment `m[k] = v` on a string-keyed
object represented as an association list: an existing key keeps its
position and gets the new value, a fresh key is appended. -/
def objSet (m : List (String × β)) (k : String) (v : β) : List (String × β) :=
  if m.any (fun e => e.1 = k) then
    m.map (fun e => if e.1 = k then (k, v) else e)
  else m ++ [(k, v)]

/-- JavaScript object property read `m[k]`, with `0` for a missing key
(the app only reads keys it has written). -/
def objGet (m : List (String × ℚ)) (k : String) : ℚ :=
  (((m.find? (fun e => decide (e.1 = k))).map Prod.snd)).getD 0

/-- Repeated assignment of the same value `v` to every key in `names`
(the `opponents.forEach((p) => (scores[p] = each))` loops). -/
def setAll (m : List (String × ℚ)) (names : List String) (v : ℚ) :
    List (String × ℚ) :=
  names.foldl (fun acc p => objSet acc p v) m

/-- Embedding of `Object.fromEntries(players.map((p) => [p, 0]))`. -/
def objFromEntries (players : List String) : List (String × ℚ) :=
  players.foldl (fun acc p => objSet acc p 0) []

/-- Result record of `calculateScores`. -/
structure CalcResult where
  scores : List (String × ℚ)
  winner : String
  distribution : String
  deriving Repr, DecidableEq

/-- Shallow embedding of `calculateScores` from `src/src/App.jsx`
(lines 190-233).  `mode` stays a string, as in the source: any mode other
than `"1v5"` takes the Normal-mode path. -/
def calculateScores (mode : String) (players : List String) (hostIdx : Nat)
    (friendIdxs : List Nat) (bid : ℤ) (opponentScore : ℤ) : CalcResult :=
  let scores0 := objFromEntries players
  let hostName := players.getD hostIdx ""
  let friendNames := friendIdxs.map (fun i => players.getD i "")
  let teamSet := hostName :: friendNames
  let opponents := players.filter (fun p => decide (p ∉ teamSet))
  let winHostTeam := opponentScore < bid
  if mode = "1v5" then
    if winHostTeam then
      { scores := objSet scores0 hostName 400
        winner := "Host"
        distribution := "1v5 host win: +400" }
    else
      let each : ℚ := ((opponentScore : ℚ) * (3/2)) / 5
      { scores := setAll scores0 opponents each
        winner := "Opponents"
        distribution := "1v5 opponents: each +" ++ toFixed0 each }
  else
    if winHostTeam then
      let distributable : ℤ := 400 - opponentScore
      let scores :=
        if friendNames.length = 0 then
          objSet scores0 hostName (distributable : ℚ)
        else if friendNames.length = 1 then
          let hostShare : ℤ := jsRound ((distributable : ℚ) * (3/4))
          objSet (objSet scores0 hostName (hostShare : ℚ))
            (friendNames.getD 0 "") ((distributable - hostShare : ℤ) : ℚ)
        else
          let hostShare : ℤ := jsRound ((distributable : ℚ) * (1/2))
          let friendShare : ℤ := jsRound (((distributable - hostShare : ℤ) : ℚ) / 2)
          objSet (objSet (objSet scores0 hostName (hostShare : ℚ))
              (friendNames.getD 0 "") (friendShare : ℚ))
            (friendNames.getD 1 "") ((distributable - hostShare - friendShare : ℤ) : ℚ)
      { scores := scores
        winner := "Host Team"
        distribution := "Host team split of " ++ toString (400 - opponentScore) }
    else
      let each : ℚ := ((opponentScore : ℚ) * (3/2)) / (opponents.length : ℚ)
      { scores := setAll scores0 opponents each
        winner := "Opponents"
        distribution := "Opponents each +" ++ toFixed0 each }

/-- Shallow embedding of the second copy of `calculateScores`, from
`src/unnamed/part_001` (lines 113-156).  The two JavaScript function bodies
are byte-for-byte identical; this definition is the embedding of the
`part_001` copy. -/
def calculateScoresPart001 (mode : String) (players : List String) (hostIdx : Nat)
    (friendIdxs : List Nat) (bid : ℤ) (opponentScore : ℤ) : CalcResult :=
  let scores0 := objFromEntries players
  let hostName := players.getD hostIdx ""
  let friendNames := friendIdxs.map (fun i => players.getD i "")
  let teamSet := hostName :: friendNames
  let opponents := players.filter (fun p => decide (p ∉ teamSet))
  let winHostTeam := opponentScore < bid
  if mode = "1v5" then
    if winHostTeam then
      { scores := objSet scores0 hostName 400
        winner := "Host"
        distribution := "1v5 host win: +400" }
    else
      let each : ℚ := ((opponentScore : ℚ) * (3/2)) / 5
      { scores := setAll scores0 opponents each
        winner := "Opponents"
        distribution := "1v5 opponents: each +" ++ toFixed0 each }
  else
    if winHostTeam then
      let distributable : ℤ := 400 - opponentScore
      let scores :=
        if friendNames.length = 0 then
          objSet scores0 hostName (distributable : ℚ)
        else if friendNames.length = 1 then
          let hostShare : ℤ := jsRound ((distributable : ℚ) * (3/4))
          objSet (objSet scores0 hostName (hostShare : ℚ))
            (friendNames.getD 0 "") ((distributable - hostShare : ℤ) : ℚ)
        else
          let hostShare : ℤ := jsRound ((distributable : ℚ) * (1/2))
          let friendShare : ℤ := jsRound (((distributable - hostShare : ℤ) : ℚ) / 2)
          objSet (objSet (objSet scores0 hostName (hostShare : ℚ))
              (friendNames.getD 0 "") (friendShare : ℚ))
            (friendNames.getD 1 "") ((distributable - hostShare - friendShare : ℤ) : ℚ)
      { scores := scores
        winner := "Host Team"
        distribution := "Host team split of " ++ toString (400 - opponentScore) }
    else
      let each : ℚ := ((opponentScore : ℚ) * (3/2)) / (opponents.length : ℚ)
      { scores := setAll scores0 opponents each
        winner := "Opponents"
        distribution := "Opponents each +" ++ toFixed0 each }

/-- A recorded round, the record built in `addRound` (App.jsx lines 258-271).
The `id` field of the source is a wall-clock timestamp string
(`Date.now()`), an opaque identifier that no studied property reads;
it is omitted from the model. -/
structure Round where
  round : ℕ
  mode : String
  players : List String
  host : String
  friends : List String
  bid : ℤ
  opponentScore : ℤ
  scores : List (String × ℚ)
  winner : String
  distribution : String
  date : String
  deriving Repr, DecidableEq

/-- A date-keyed session: roster, recorded rounds, next round number
(App.jsx lines 44-50). -/
structure Session where
  players : List String
  rounds : List Round
  currentRound : ℕ
  deriving Repr, DecidableEq

/-- The default roster, `defaultPlayers()` in the source. -/
def defaultPlayers : List String :=
  ["Player 1", "Player 2", "Player 3", "Player 4", "Player 5", "Player 6"]

/-- A freshly created session: default-like roster, no rounds, counter 1. -/
def freshSession (ps : List String) : Session :=
  { players := ps, rounds := [], currentRound := 1 }

/-- Shallow embedding of `addRound` (App.jsx lines 235-277) acting on the
session for the selected date.  The component state it reads —
`selectedDate`, form fields, and the current session — are explicit
arguments; `resetNewGameForm` only clears form fields and is not part of
the session state. -/
def addRound (selectedDate today mode : String) (host : Nat) (friends : List Nat)
    (bid opponentScore : ℤ) (s : Session) : Session :=
  if selectedDate ≠ today then s
  else
    let friendIdxs := friends.filter (fun i => decide (i ≠ host))
    if mode = "Normal" ∧ friendIdxs.length > 2 then s
    else if bid < 80 ∧ bid ≠ 160 then s
    else if opponentScore < 0 ∨ opponentScore > 400 then s
    else
      let result := calculateScores mode s.players host friendIdxs bid opponentScore
      { s with
        rounds := s.rounds ++ [{
          round := s.currentRound
          mode := mode
          players := s.players
          host := s.players.getD host ""
          friends := friendIdxs.map (fun i => s.players.getD i "")
          bid := bid
          opponentScore := opponentScore
          scores := result.scores
          winner := result.winner
          distribution := result.distribution
          date := selectedDate }]
        currentRound := s.currentRound + 1 }

/-- One submission of the New Round form. -/
structure Attempt where
  date : String
  mode : String
  host : Nat
  friends : List Nat
  bid : ℤ
  opponentScore : ℤ
  deriving Repr, DecidableEq

/-- A sequence of form submissions applied to a session. -/
def applyAttempts (today : String) (attempts : List Attempt) (s : Session) : Session :=
  attempts.foldl
    (fun acc a => addRound a.date today a.mode a.host a.friends a.bid a.opponentScore acc) s

/-- The session invariant behind round numbering: recorded round numbers
are `1, …, N` and the counter reads `N + 1`. -/
def numberedOk (s : Session) : Prop :=
  s.rounds.map Round.round = List.range' 1 s.rounds.length
    ∧ s.currentRound = s.rounds.length + 1

/-- Shallow embedding of `onRename` (App.jsx lines 73-79): replace one
roster slot of the current session. -/
def onRename (s : Session) (idx : Nat) (name : String) : Session :=
  { s with players := s.players.set idx name }

/-- Per-player accumulator of `enhancedStats` (App.jsx lines 118-128). -/
structure PStats where
  totalScore : ℚ
  gamesPlayed : ℕ
  hosted : ℕ
  hostWins : ℕ
  friendGames : ℕ
  friendWins : ℕ
  deriving Repr, DecidableEq

/-- The all-zero accumulator every roster player starts from. -/
def pstatsZero : PStats :=
  { totalScore := 0, gamesPlayed := 0, hosted := 0, hostWins := 0
    friendGames := 0, friendWins := 0 }

/-- JavaScript `if (playerStats[k]) { ...update playerStats[k]... }`:
update the entry at key `k` if present, otherwise do nothing. -/
def statUpd (m : List (String × PStats)) (k : String) (f : PStats → PStats) :
    List (String × PStats) :=
  m.map (fun e => if e.1 = k then (e.1, f e.2) else e)

/-- The initial `playerStats` object: `players.reduce((acc, p) => ...)`
(App.jsx lines 118-128). -/
def initStats (ps : List String) : List (String × PStats) :=
  ps.foldl (fun acc p => objSet acc p pstatsZero) []

/-- Body of the `allRounds.forEach(round => ...)` loop of `enhancedStats`
(App.jsx lines 130-158): games-played counts, score totals, host stats,
friend stats, each guarded by key presence. -/
def processRound (acc : List (String × PStats)) (r : Round) : List (String × PStats) :=
  let acc1 := r.players.foldl
    (fun m p => statUpd m p (fun st => { st with gamesPlayed := st.gamesPlayed + 1 })) acc
  let acc2 := r.scores.foldl
    (fun m e => statUpd m e.1 (fun st => { st with totalScore := st.totalScore + e.2 })) acc1
  let acc3 := statUpd acc2 r.host (fun st =>
    { st with
      hosted := st.hosted + 1
      hostWins := st.hostWins +
        (if r.winner = "Host" ∨ r.winner = "Host Team" then 1 else 0) })
  r.friends.foldl
    (fun m f => statUpd m f (fun st =>
      { st with
        friendGames := st.friendGames + 1
        friendWins := st.friendWins +
          (if r.winner = "Host" ∨ r.winner = "Host Team" then 1 else 0) })) acc3

/-- One element of `playerRankings` (App.jsx lines 161-172). -/
structure RankEntry where
  name : String
  totalScore : ℤ
  gamesPlayed : ℕ
  hosted : ℕ
  hostWins : ℕ
  hostRate : ℤ
  friendGames : ℕ
  friendWins : ℕ
  friendRate : ℤ
  deriving Repr, DecidableEq

/-- The `map` step building one ranking entry from accumulated stats
(App.jsx lines 162-172). -/
def mkRankEntry (name : String) (st : PStats) : RankEntry :=
  { name := name
    totalScore := jsRound st.totalScore
    gamesPlayed := st.gamesPlayed
    hosted := st.hosted
    hostWins := st.hostWins
    hostRate := if st.hosted > 0 then jsRound ((st.hostWins : ℚ) / (st.hosted : ℚ) * 100) else 0
    friendGames := st.friendGames
    friendWins := st.friendWins
    friendRate :=
      if st.friendGames > 0 then jsRound ((st.friendWins : ℚ) / (st.friendGames : ℚ) * 100)
      else 0 }

/-- Comparator `(a, b) => b.totalScore - a.totalScore` as the ordering it
induces: descending by total score. -/
def byTotalDesc (a b : RankEntry) : Prop := b.totalScore ≤ a.totalScore

/-- Comparator `(a, b) => b.hostRate - a.hostRate`. -/
def byHostRateDesc (a b : RankEntry) : Prop := b.hostRate ≤ a.hostRate

/-- Comparator `(a, b) => b.friendRate - a.friendRate`. -/
def byFriendRateDesc (a b : RankEntry) : Prop := b.friendRate ≤ a.friendRate

/-- Comparator `(a, b) => b.gamesPlayed - a.gamesPlayed`. -/
def byGamesDesc (a b : RankEntry) : Prop := b.gamesPlayed ≤ a.gamesPlayed

instance : DecidableRel byTotalDesc := fun _ _ => inferInstanceAs (Decidable (_ ≤ _))

instance : DecidableRel byHostRateDesc := fun _ _ => inferInstanceAs (Decidable (_ ≤ _))

instance : DecidableRel byFriendRateDesc := fun _ _ => inferInstanceAs (Decidable (_ ≤ _))

instance : DecidableRel byGamesDesc := fun _ _ => inferInstanceAs (Decidable (_ ≤ _))

instance : IsTotal RankEntry byTotalDesc := ⟨fun _ _ => le_total _ _⟩

instance : IsTrans RankEntry byTotalDesc := ⟨fun _ _ _ h1 h2 => le_trans h2 h1⟩

instance : IsTotal RankEntry byHostRateDesc := ⟨fun _ _ => le_total _ _⟩

instance : IsTrans RankEntry byHostRateDesc := ⟨fun _ _ _ h1 h2 => le_trans h2 h1⟩

instance : IsTotal RankEntry byFriendRateDesc := ⟨fun _ _ => le_total _ _⟩

instance : IsTrans RankEntry byFriendRateDesc := ⟨fun _ _ _ h1 h2 => le_trans h2 h1⟩

instance : IsTotal RankEntry byGamesDesc := ⟨fun _ _ => le_total _ _⟩

instance : IsTrans RankEntry byGamesDesc := ⟨fun _ _ _ h1 h2 => le_trans h2 h1⟩

/-- Embedding of `Object.values(gameData).flatMap(s => s.rounds)` (App.jsx
line 114):
`gameData` is a string-keyed object, modelled as an association list in
key-insertion order. -/
def allRounds (gameData : List (String × Session)) : List Round :=
  (gameData.map Prod.snd).flatMap Session.rounds

/-- Result record of `enhancedStats`. -/
structure EnhancedStats where
  totalRounds : ℕ
  playerRankings : List RankEntry
  bestHost : Option RankEntry
  bestFriend : Option RankEntry
  mostGamesPlayed : Option RankEntry
  deriving Repr, DecidableEq

/-- Shallow embedding of the `enhancedStats` memo (App.jsx lines 113-187).
ECMAScript `Array.prototype.sort` with a consistent comparator is a stable
sort, modelled by the stable `List.insertionSort`.  The `.sort(...)` call
of line 173 produces the array `rankings0` below; the `.filter(...).sort(...)`
calls of lines 176-177 sort fresh copies, so `bestHost` and `bestFriend`
read `rankings0`; the `.sort(...)` call of line 178 sorts the same array
in place, so the returned `playerRankings` (and `mostGamesPlayed`) use the
games-played ordering. -/
def enhancedStats (gameData : List (String × Session)) (players : List String) :
    EnhancedStats :=
  let rounds := allRounds gameData
  let playerStats := rounds.foldl processRound (initStats players)
  let rankings0 :=
    List.insertionSort byTotalDesc (playerStats.map (fun e => mkRankEntry e.1 e.2))
  let bestHost :=
    (List.insertionSort byHostRateDesc (rankings0.filter (fun p => decide (p.hosted ≥ 3)))).head?
  let bestFriend :=
    (List.insertionSort byFriendRateDesc
      (rankings0.filter (fun p => decide (p.friendGames ≥ 3)))).head?
  let playerRankings := List.insertionSort byGamesDesc rankings0
  { totalRounds := rounds.length
    playerRankings := playerRankings
    bestHost := bestHost
    bestFriend := bestFriend
    mostGamesPlayed := playerRankings.head? }

/-- Roster of the older session in the concrete scenario below. -/
def rosterOld : List String := defaultPlayers

/-- Roster of the current session after the rename of slot 0. -/
def rosterNew : List String :=
  ["Alice", "Player 2", "Player 3", "Player 4", "Player 5", "Player 6"]

/-- A round of the older session: `Player 1` hosts alone at bid 150 against
opponent score 100 and wins 300. -/
def roundOldWin (n : ℕ) : Round :=
  { round := n
    mode := "Normal"
    players := rosterOld
    host := "Player 1"
    friends := []
    bid := 150
    opponentScore := 100
    scores := (calculateScores "Normal" rosterOld 0 [] 150 100).scores
    winner := (calculateScores "Normal" rosterOld 0 [] 150 100).winner
    distribution := (calculateScores "Normal" rosterOld 0 [] 150 100).distribution
    date := "Fri Oct 10 2025" }

/-- The current session's round: `Alice` hosts alone at bid 150 against
opponent score 0 and wins 400. -/
def roundNewWin : Round :=
  { round := 1
    mode := "Normal"
    players := rosterNew
    host := "Alice"
    friends := []
    bid := 150
    opponentScore := 0
    scores := (calculateScores "Normal" rosterNew 0 [] 150 0).scores
    winner := (calculateScores "Normal" rosterNew 0 [] 150 0).winner
    distribution := (calculateScores "Normal" rosterNew 0 [] 150 0).distribution
    date := "Sat Oct 11 2025" }

/-- Concrete game data: an older session of two rounds hosted and won by
`Player 1`, and the current session, whose roster has slot 0 renamed to
`Alice`, with one round hosted and won by `Alice`. -/
def gdC : List (String × Session) :=
  [ ("Fri Oct 10 2025",
      { players := rosterOld, rounds := [roundOldWin 1, roundOldWin 2], currentRound := 3 }),
    ("Sat Oct 11 2025",
      { players := rosterNew, rounds := [roundNewWin], currentRound := 2 }) ]

/-! ### Laws of the JavaScript-object model -/

lemma objGet_nil (k : String) : objGet [] k = 0 := rfl

lemma objGet_cons (e : String × ℚ) (m : List (String × ℚ)) (k : String) :
    objGet (e :: m) k = if e.1 = k then e.2 else objGet m k := by
  by_cases h : e.1 = k
  · rw [if_pos h]
    unfold objGet
    rw [List.find?_cons_of_pos _ (by simpa using h)]
    rfl
  · rw [if_neg h]
    unfold objGet
    rw [List.find?_cons_of_neg _ (by simpa using h)]

lemma objSet_of_not_key (m : List (String × β)) (k : String) (v : β)
    (h : m.any (fun e => decide (e.1 = k)) = false) :
    objSet m k v = m ++ [(k, v)] := by
  simp only [objSet, h]
  simp

lemma objSet_of_key (m : List (String × β)) (k : String) (v : β)
    (h : m.any (fun e => decide (e.1 = k)) = true) :
    objSet m k v = m.map (fun e => if e.1 = k then (k, v) else e) := by
  simp only [objSet, h]
  simp

lemma objGet_map_ite_self (m : List (String × ℚ)) (k : String) (v : ℚ)
    (h : m.any (fun e => decide (e.1 = k)) = true) :
    objGet (m.map (fun e => if e.1 = k then (k, v) else e)) k = v := by
  induction m with
  | nil => simp at h
  | cons e m ih =>
    by_cases he : e.1 = k
    · simp [objGet_cons, he]
    · have hm : m.any (fun e => decide (e.1 = k)) = true := by
        simpa [List.any_cons, he] using h
      simp [objGet_cons, he, ih hm]

lemma objGet_map_ite_ne (m : List (String × ℚ)) (k k' : String) (v : ℚ)
    (hne : k' ≠ k) :
    objGet (m.map (fun e => if e.1 = k then (k, v) else e)) k' = objGet m k' := by
  induction m with
  | nil => rfl
  | cons e m ih =>
    rw [List.map_cons, objGet_cons, objGet_cons]
    by_cases he : e.1 = k
    · rw [if_pos he]
      have hkk' : ¬ ((k, v) : String × ℚ).1 = k' := fun h => hne h.symm
      have he' : ¬ e.1 = k' := by
        rw [he]
        exact fun h => hne h.symm
      rw [if_neg hkk', if_neg he', ih]
    · rw [if_neg he]
      by_cases he' : e.1 = k'
      · rw [if_pos he', if_pos he']
      · rw [if_neg he', if_neg he', ih]

lemma objGet_append_single_ne (m : List (String × ℚ)) (k k' : String) (v : ℚ)
    (hne : k' ≠ k) :
    objGet (m ++ [(k, v)]) k' = objGet m k' := by
  induction m with
  | nil =>
    rw [List.nil_append, objGet_cons, if_neg (fun h : k = k' => hne h.symm)]
  | cons e m ih =>
    rw [List.cons_append, objGet_cons, objGet_cons, ih]

/-- Reading back the key just assigned gives the assigned value. -/
lemma objGet_objSet_self (m : List (String × ℚ)) (k : String) (v : ℚ) :
    objGet (objSet m k v) k = v := by
  by_cases h : m.any (fun e => decide (e.1 = k)) = true
  · rw [objSet_of_key m k v h]
    exact objGet_map_ite_self m k v h
  · rw [objSet_of_not_key m k v (Bool.eq_false_iff.mpr h)]
    induction m with
    | nil => simp [objGet_cons]
    | cons e m ih =>
      have he : ¬ e.1 = k := by
        intro hk
        exact h (by simp [List.any_cons, hk])
      have hm : ¬ m.any (fun e => decide (e.1 = k)) = true := by
        intro hk
        exact h (by simp [List.any_cons, hk])
      rw [List.cons_append, objGet_cons, if_neg he]
      exact ih hm

/-- Assigning one key leaves every other key unchanged. -/
lemma objGet_objSet_ne (m : List (String × ℚ)) (k k' : String) (v : ℚ)
    (hne : k' ≠ k) :
    objGet (objSet m k v) k' = objGet m k' := by
  by_cases h : m.any (fun e => decide (e.1 = k)) = true
  · rw [objSet_of_key m k v h]
    exact objGet_map_ite_ne m k k' v hne
  · rw [objSet_of_not_key m k v (Bool.eq_false_iff.mpr h)]
    exact objGet_append_single_ne m k k' v hne

/-- A key outside `names` is untouched by the assignment loop. -/
lemma objGet_setAll_not_mem (m : List (String × ℚ)) (names : List String)
    (v : ℚ) (p : String) (hp : p ∉ names) :
    objGet (setAll m names v) p = objGet m p := by
  induction names generalizing m with
  | nil => rfl
  | cons q names ih =>
    have hpq : p ≠ q := fun h => hp (h ▸ List.mem_cons_self q names)
    have hpn : p ∉ names := fun h => hp (List.mem_cons_of_mem q h)
    have hstep : setAll m (q :: names) v = setAll (objSet m q v) names v := rfl
    rw [hstep, ih (objSet m q v) hpn]
    exact objGet_objSet_ne m q p v hpq

/-- Every key in `names` ends up with the assigned value. -/
lemma objGet_setAll_mem (m : List (String × ℚ)) (names : List String)
    (v : ℚ) (p : String) (hp : p ∈ names) :
    objGet (setAll m names v) p = v := by
  induction names generalizing m with
  | nil => exact absurd hp (List.not_mem_nil p)
  | cons q names ih =>
    have hstep : setAll m (q :: names) v = setAll (objSet m q v) names v := rfl
    rw [hstep]
    by_cases hpn : p ∈ names
    · exact ih (objSet m q v) hpn
    · have hpq : p = q := by
        rcases List.mem_cons.mp hp with h | h
        · exact h
        · exact absurd h hpn
      rw [objGet_setAll_not_mem (objSet m q v) names v p hpn, hpq]
      exact objGet_objSet_self m q v

/-- The freshly built scores object maps every name to `0`. -/
lemma objGet_objFromEntries (ps : List String) (p : String) :
    objGet (objFromEntries ps) p = 0 := by
  have h : objFromEntries ps = setAll [] ps 0 := rfl
  rw [h]
  by_cases hp : p ∈ ps
  · exact objGet_setAll_mem [] ps 0 p hp
  · rw [objGet_setAll_not_mem [] ps 0 p hp]
    rfl

/-- Distinct valid roster indices name distinct players on a duplicate-free
roster. -/
lemma getD_ne_of_ne (ps : List String) (i j : Nat) (hnd : ps.Nodup)
    (hi : i < ps.length) (hj : j < ps.length) (hij : i ≠ j) :
    ps.getD i "" ≠ ps.getD j "" := by
  rw [List.getD_eq_getElem ps "" hi, List.getD_eq_getElem ps "" hj]
  intro h
  exact hij ((List.Nodup.getElem_inj_iff hnd).mp h)

/-! ### Computation lemmas for the Normal-mode winning branch -/

lemma calculateScores_normal_win_zero (players : List String) (hostIdx : Nat)
    (bid opp : ℤ) (hwin : opp < bid) :
    (calculateScores "Normal" players hostIdx [] bid opp).scores
      = objSet (objFromEntries players) (players.getD hostIdx "")
          (((400 - opp : ℤ) : ℚ)) := by
  simp [calculateScores, hwin]

lemma calculateScores_normal_win_one (players : List String) (hostIdx a : Nat)
    (bid opp : ℤ) (hwin : opp < bid) :
    (calculateScores "Normal" players hostIdx [a] bid opp).scores
      = objSet
          (objSet (objFromEntries players) (players.getD hostIdx "")
            ((jsRound (((400 - opp : ℤ) : ℚ) * (3/4)) : ℤ) : ℚ))
          (players.getD a "")
          ((((400 - opp : ℤ) - jsRound (((400 - opp : ℤ) : ℚ) * (3/4)) : ℤ) : ℚ)) := by
  simp [calculateScores, hwin]

lemma calculateScores_normal_win_two (players : List String) (hostIdx a b : Nat)
    (bid opp : ℤ) (hwin : opp < bid) :
    (calculateScores "Normal" players hostIdx [a, b] bid opp).scores
      = objSet
          (objSet
            (objSet (objFromEntries players) (players.getD hostIdx "")
              ((jsRound (((400 - opp : ℤ) : ℚ) * (1/2)) : ℤ) : ℚ))
            (players.getD a "")
            ((jsRound ((((400 - opp : ℤ) - jsRound (((400 - opp : ℤ) : ℚ) * (1/2)) : ℤ) : ℚ)
              / 2) : ℤ) : ℚ))
          (players.getD b "")
          ((((400 - opp : ℤ) - jsRound (((400 - opp : ℤ) : ℚ) * (1/2))
            - jsRound ((((400 - opp : ℤ) - jsRound (((400 - opp : ℤ) : ℚ) * (1/2)) : ℤ) : ℚ)
              / 2) : ℤ) : ℚ)) := by
  simp [calculateScores, hwin]

/-! ### Claim theorems -/

/-- C1: in Normal mode, when the host team wins, the host's share plus the
friends' shares sum exactly to `distributable = 400 - opponentScore`, for
every opponent score in `[0, 400]` and every friend count in `{0, 1, 2}`;
with one friend the host gets `round(distributable * 0.75)` and with two
friends the host gets `round(distributable * 0.5)` and friend #1 gets
`round((distributable - hostShare) / 2)`, the last teammate receiving the
exact remainder in both cases. -/
theorem normal_win_exact_sum (players : List String) (hostIdx : Nat)
    (friendIdxs : List Nat) (bid opponentScore : ℤ)
    (hnd : players.Nodup) (hh : hostIdx < players.length)
    (hf : ∀ i ∈ friendIdxs, i < players.length ∧ i ≠ hostIdx)
    (hfd : friendIdxs.Nodup) (hcount : friendIdxs.length ≤ 2)
    (hwin : opponentScore < bid) (_hlo : 0 ≤ opponentScore) (_hhi : opponentScore ≤ 400) :
    objGet (calculateScores "Normal" players hostIdx friendIdxs bid opponentScore).scores
        (players.getD hostIdx "")
      + ((friendIdxs.map (fun i => players.getD i "")).map
          (objGet
            (calculateScores "Normal" players hostIdx friendIdxs bid opponentScore).scores)).sum
      = ((400 - opponentScore : ℤ) : ℚ)
    ∧ (friendIdxs.length = 1 →
        objGet (calculateScores "Normal" players hostIdx friendIdxs bid opponentScore).scores
            (players.getD hostIdx "")
          = ((jsRound (((400 - opponentScore : ℤ) : ℚ) * (3/4)) : ℤ) : ℚ))
    ∧ (friendIdxs.length = 2 →
        objGet (calculateScores "Normal" players hostIdx friendIdxs bid opponentScore).scores
            (players.getD hostIdx "")
            = ((jsRound (((400 - opponentScore : ℤ) : ℚ) * (1/2)) : ℤ) : ℚ)
        ∧ objGet (calculateScores "Normal" players hostIdx friendIdxs bid opponentScore).scores
            (players.getD (friendIdxs.getD 0 0) "")
            = ((jsRound ((((400 - opponentScore : ℤ)
                - jsRound (((400 - opponentScore : ℤ) : ℚ) * (1/2)) : ℤ) : ℚ) / 2) : ℤ) : ℚ)) := by
  match friendIdxs, hfd, hcount with
  | [], _, _ =>
    rw [calculateScores_normal_win_zero players hostIdx bid opponentScore hwin]
    refine ⟨?_, ?_, ?_⟩
    · rw [objGet_objSet_self]
      simp
    · intro h
      simp at h
    · intro h
      simp at h
  | [a], _, _ =>
    have ha := hf a (List.mem_cons_self a [])
    have hHA : players.getD hostIdx "" ≠ players.getD a "" :=
      getD_ne_of_ne players hostIdx a hnd hh ha.1 (fun h => ha.2 h.symm)
    rw [calculateScores_normal_win_one players hostIdx a bid opponentScore hwin]
    refine ⟨?_, ?_, ?_⟩
    · simp only [List.map_cons, List.map_nil, List.sum_cons, List.sum_nil]
      rw [objGet_objSet_ne _ _ _ _ hHA, objGet_objSet_self, objGet_objSet_self]
      push_cast
      ring
    · intro _
      rw [objGet_objSet_ne _ _ _ _ hHA, objGet_objSet_self]
    · intro h
      simp at h
  | [a, b], hfd, _ =>
    have ha := hf a (List.mem_cons_self a [b])
    have hb := hf b (List.mem_cons_of_mem a (List.mem_cons_self b []))
    have hab : a ≠ b := by
      intro h
      rw [h] at hfd
      simp at hfd
    have hHA : players.getD hostIdx "" ≠ players.getD a "" :=
      getD_ne_of_ne players hostIdx a hnd hh ha.1 (fun h => ha.2 h.symm)
    have hHB : players.getD hostIdx "" ≠ players.getD b "" :=
      getD_ne_of_ne players hostIdx b hnd hh hb.1 (fun h => hb.2 h.symm)
    have hAB : players.getD a "" ≠ players.getD b "" :=
      getD_ne_of_ne players a b hnd ha.1 hb.1 hab
    rw [calculateScores_normal_win_two players hostIdx a b bid opponentScore hwin]
    refine ⟨?_, ?_, ?_⟩
    · simp only [List.map_cons, List.map_nil, List.sum_cons, List.sum_nil]
      rw [objGet_objSet_ne _ _ _ _ hHB, objGet_objSet_ne _ _ _ _ hHA, objGet_objSet_self,
        objGet_objSet_ne _ _ _ _ hAB, objGet_objSet_self, objGet_objSet_self]
      push_cast
      ring
    · intro h
      simp at h
    · intro _
      constructor
      · rw [objGet_objSet_ne _ _ _ _ hHB, objGet_objSet_ne _ _ _ _ hHA, objGet_objSet_self]
      · have hgd : ([a, b] : List Nat).getD 0 0 = a := rfl
        rw [hgd, objGet_objSet_ne _ _ _ _ hAB, objGet_objSet_self]
  | a :: b :: c :: t, _, hcount =>
    exact absurd hcount (by simp)

/-- C1 witness: two friends, bid 150, opponent score 95, so
`distributable = 305` splits as host 153, friend #1 76, friend #2 76. -/
theorem normal_win_exact_sum_witness :
    (defaultPlayers.Nodup ∧ 0 < defaultPlayers.length
      ∧ (∀ i ∈ [1, 2], i < defaultPlayers.length ∧ i ≠ 0)
      ∧ ([1, 2] : List Nat).Nodup ∧ ([1, 2] : List Nat).length ≤ 2
      ∧ (95 : ℤ) < 150 ∧ (0 : ℤ) ≤ 95 ∧ (95 : ℤ) ≤ 400)
    ∧ (objGet (calculateScores "Normal" defaultPlayers 0 [1, 2] 150 95).scores
          (defaultPlayers.getD 0 "")
        + (([1, 2].map (fun i => defaultPlayers.getD i "")).map
            (objGet (calculateScores "Normal" defaultPlayers 0 [1, 2] 150 95).scores)).sum
        = ((400 - 95 : ℤ) : ℚ)) :=
  ⟨⟨by decide, by decide, by decide, by decide, by decide, by decide, by decide, by decide⟩,
    (normal_win_exact_sum defaultPlayers 0 [1, 2] 150 95 (by decide) (by decide)
      (by decide) (by decide) (by decide) (by decide) (by decide) (by decide)).1⟩

/-- Unfolding of the 1v5 winning branch. -/
lemma calculateScores_1v5_win (players : List String) (hostIdx : Nat)
    (bid opp : ℤ) (hwin : opp < bid) :
    calculateScores "1v5" players hostIdx [] bid opp
      = { scores := objSet (objFromEntries players) (players.getD hostIdx "") 400
          winner := "Host"
          distribution := "1v5 host win: +400" } := by
  simp [calculateScores, hwin]

/-- Unfolding of the 1v5 losing branch. -/
lemma calculateScores_1v5_lose (players : List String) (hostIdx : Nat)
    (bid opp : ℤ) (hwin : ¬ opp < bid) :
    calculateScores "1v5" players hostIdx [] bid opp
      = { scores := setAll (objFromEntries players)
            (players.filter (fun p => decide (p ∉ [players.getD hostIdx ""])))
            (((opp : ℚ) * (3/2)) / 5)
          winner := "Opponents"
          distribution := "1v5 opponents: each +" ++ toFixed0 (((opp : ℚ) * (3/2)) / 5) } := by
  simp [calculateScores, hwin]

/-- On a duplicate-free roster of six, removing the host leaves five
opponents. -/
lemma opponents_length_five (players : List String) (hostIdx : Nat)
    (hnd : players.Nodup) (hlen : players.length = 6) (hh : hostIdx < players.length) :
    (players.filter (fun p => decide (p ∉ [players.getD hostIdx ""]))).length = 5 := by
  have hmem : players.getD hostIdx "" ∈ players := by
    rw [List.getD_eq_getElem players "" hh]
    exact List.getElem_mem hh
  have hcongr :
      players.filter (fun p => decide (p ∉ [players.getD hostIdx ""]))
        = players.filter (fun p => p != players.getD hostIdx "") := by
    apply List.filter_congr
    intro x _
    rw [bne, Bool.beq_eq_decide_eq]
    simp
  rw [hcongr, ← List.Nodup.erase_eq_filter hnd, List.length_erase_of_mem hmem, hlen]

lemma mem_opponents (players : List String) (a p : String)
    (hp : p ∈ players) (hne : p ≠ a) :
    p ∈ players.filter (fun p => decide (p ∉ [a])) := by
  rw [List.mem_filter]
  exact ⟨hp, by simp [hne]⟩

lemma host_not_mem_opponents (players : List String) (a : String) :
    a ∉ players.filter (fun p => decide (p ∉ [a])) := by
  intro h
  rw [List.mem_filter] at h
  simp at h

/-- C3: in 1v5 mode on a duplicate-free roster of six (friends are forced
empty in this mode): a winning host gets exactly 400 and everyone else 0,
with winner `Host`; otherwise the host gets 0 and each of the 5 opponents
gets exactly `opponentScore * 1.5 / 5`, with winner `Opponents`. -/
theorem oneVFive_scores (players : List String) (hostIdx : Nat) (bid opp : ℤ)
    (hnd : players.Nodup) (hlen : players.length = 6) (hh : hostIdx < players.length) :
    ((players.filter (fun p => decide (p ∉ [players.getD hostIdx ""]))).length = 5)
    ∧ (opp < bid →
        (calculateScores "1v5" players hostIdx [] bid opp).winner = "Host"
        ∧ objGet (calculateScores "1v5" players hostIdx [] bid opp).scores
            (players.getD hostIdx "") = 400
        ∧ ∀ p ∈ players, p ≠ players.getD hostIdx "" →
            objGet (calculateScores "1v5" players hostIdx [] bid opp).scores p = 0)
    ∧ (¬ opp < bid →
        (calculateScores "1v5" players hostIdx [] bid opp).winner = "Opponents"
        ∧ objGet (calculateScores "1v5" players hostIdx [] bid opp).scores
            (players.getD hostIdx "") = 0
        ∧ ∀ p ∈ players, p ≠ players.getD hostIdx "" →
            objGet (calculateScores "1v5" players hostIdx [] bid opp).scores p
              = ((opp : ℚ) * (3/2)) / 5) := by
  refine ⟨opponents_length_five players hostIdx hnd hlen hh, ?_, ?_⟩
  · intro hwin
    rw [calculateScores_1v5_win players hostIdx bid opp hwin]
    refine ⟨rfl, objGet_objSet_self _ _ _, ?_⟩
    intro p _ hne
    rw [objGet_objSet_ne _ _ _ _ hne]
    exact objGet_objFromEntries players p
  · intro hwin
    rw [calculateScores_1v5_lose players hostIdx bid opp hwin]
    refine ⟨rfl, ?_, ?_⟩
    · rw [objGet_setAll_not_mem _ _ _ _
        (host_not_mem_opponents players (players.getD hostIdx ""))]
      exact objGet_objFromEntries players _
    · intro p hp hne
      exact objGet_setAll_mem _ _ _ _
        (mem_opponents players (players.getD hostIdx "") p hp hne)

/-- C3 witness: concrete losing 1v5 round from the spec's Scenario C
(bid 200, opponent score 210), each opponent receiving 63. -/
theorem oneVFive_scores_witness :
    (defaultPlayers.Nodup ∧ defaultPlayers.length = 6 ∧ 0 < defaultPlayers.length
      ∧ ¬ (210 : ℤ) < 200)
    ∧ ((calculateScores "1v5" defaultPlayers 0 [] 200 210).winner = "Opponents"
        ∧ objGet (calculateScores "1v5" defaultPlayers 0 [] 200 210).scores
            (defaultPlayers.getD 0 "") = 0
        ∧ ∀ p ∈ defaultPlayers, p ≠ defaultPlayers.getD 0 "" →
            objGet (calculateScores "1v5" defaultPlayers 0 [] 200 210).scores p
              = (((210 : ℤ) : ℚ) * (3/2)) / 5) :=
  ⟨⟨by decide, by decide, by decide, by decide⟩,
    (oneVFive_scores defaultPlayers 0 200 210 (by decide) (by decide) (by decide)).2.2
      (by decide)⟩

/-- C10: the two copies of the scoring function, in `src/src/App.jsx` and
in `src/unnamed/part_001`, are extensionally equal: on every input they
return the same scores map, winner label and distribution string. -/
theorem calculateScores_copies_equal (mode : String) (players : List String)
    (hostIdx : Nat) (friendIdxs : List Nat) (bid opponentScore : ℤ) :
    calculateScores mode players hostIdx friendIdxs bid opponentScore
      = calculateScoresPart001 mode players hostIdx friendIdxs bid opponentScore := rfl

/-- C2: for both game modes, `calculateScores` classifies the host team as
winning exactly when `opponentScore < bid` (a tie goes to the opponents),
and labels the winner `Host` in a 1v5 host win, `Host Team` in a Normal
host-team win, and `Opponents` otherwise. -/
theorem winner_classification (mode : String) (players : List String)
    (hostIdx : Nat) (friendIdxs : List Nat) (bid opponentScore : ℤ)
    (hm : mode = "Normal" ∨ mode = "1v5") :
    ((calculateScores mode players hostIdx friendIdxs bid opponentScore).winner
        ≠ "Opponents" ↔ opponentScore < bid)
    ∧ (opponentScore < bid →
        (calculateScores mode players hostIdx friendIdxs bid opponentScore).winner
          = if mode = "1v5" then "Host" else "Host Team")
    ∧ (¬ opponentScore < bid →
        (calculateScores mode players hostIdx friendIdxs bid opponentScore).winner
          = "Opponents") := by
  by_cases hw : opponentScore < bid
  · rcases hm with h | h <;> subst h <;> simp [calculateScores, hw]
  · rcases hm with h | h <;> subst h <;> simp [calculateScores, hw]

/-- C2 witness: concrete instance, `Normal` mode with a tie
(`opponentScore = bid = 150`) going to the opponents. -/
theorem winner_classification_witness :
    ("Normal" = "Normal" ∨ ("Normal" : String) = "1v5")
    ∧ ((calculateScores "Normal" defaultPlayers 0 [] 150 150).winner = "Opponents") :=
  ⟨by decide,
    ((winner_classification "Normal" defaultPlayers 0 [] 150 150 (by decide)).2.2
      (by decide))⟩

/-- C4: with today's session selected, `addRound` leaves the session state
untouched exactly when a validation rule is violated: more than two
host-excluded friends in Normal mode, a bid below 80 other than the
`No Bids` sentinel 160, or an opponent score outside `[0, 400]`.  On
failure nothing at all is stored — the state is identical. -/
theorem addRound_fails_iff (today mode : String) (host : Nat) (friends : List Nat)
    (bid opp : ℤ) (s : Session) :
    addRound today today mode host friends bid opp s = s ↔
      ((mode = "Normal" ∧ (friends.filter (fun i => decide (i ≠ host))).length > 2)
        ∨ (bid < 80 ∧ bid ≠ 160) ∨ (opp < 0 ∨ opp > 400)) := by
  simp only [addRound]
  rw [if_neg (show ¬ today ≠ today from fun hne => hne rfl)]
  by_cases h1 : mode = "Normal" ∧ (friends.filter (fun i => decide (i ≠ host))).length > 2
  · rw [if_pos h1]
    exact iff_of_true rfl (Or.inl h1)
  · rw [if_neg h1]
    by_cases h2 : bid < 80 ∧ bid ≠ 160
    · rw [if_pos h2]
      exact iff_of_true rfl (Or.inr (Or.inl h2))
    · rw [if_neg h2]
      by_cases h3 : opp < 0 ∨ opp > 400
      · rw [if_pos h3]
        exact iff_of_true rfl (Or.inr (Or.inr h3))
      · rw [if_neg h3]
        refine iff_of_false ?_ (by tauto)
        intro heq
        have h4 := congrArg (fun t : Session => t.rounds.length) heq
        simp at h4

/-- Either a form submission is rejected with the state unchanged, or it
appends one round numbered with the current counter and advances the
counter by one. -/
lemma addRound_step (d t mode : String) (host : Nat) (friends : List Nat)
    (bid opp : ℤ) (s : Session) :
    addRound d t mode host friends bid opp s = s
      ∨ ((addRound d t mode host friends bid opp s).rounds.map Round.round
            = s.rounds.map Round.round ++ [s.currentRound]
          ∧ (addRound d t mode host friends bid opp s).currentRound
            = s.currentRound + 1) := by
  simp only [addRound]
  by_cases h0 : d ≠ t
  · left
    rw [if_pos h0]
  · rw [if_neg h0]
    by_cases h1 : mode = "Normal" ∧ (friends.filter (fun i => decide (i ≠ host))).length > 2
    · left
      rw [if_pos h1]
    · rw [if_neg h1]
      by_cases h2 : bid < 80 ∧ bid ≠ 160
      · left
        rw [if_pos h2]
      · rw [if_neg h2]
        by_cases h3 : opp < 0 ∨ opp > 400
        · left
          rw [if_pos h3]
        · rw [if_neg h3]
          right
          refine ⟨?_, rfl⟩
          rw [List.map_append]
          rfl

lemma numberedOk_addRound (d t mode : String) (host : Nat) (friends : List Nat)
    (bid opp : ℤ) (s : Session) (hs : numberedOk s) :
    numberedOk (addRound d t mode host friends bid opp s) := by
  rcases addRound_step d t mode host friends bid opp s with h | ⟨hmap, hcr⟩
  · rw [h]
    exact hs
  · have hlen : (addRound d t mode host friends bid opp s).rounds.length
        = s.rounds.length + 1 := by
      have := congrArg List.length hmap
      simpa using this
    constructor
    · rw [hmap, hlen, hs.1, hs.2, List.range'_1_concat, Nat.add_comm 1 s.rounds.length]
    · rw [hcr, hlen, hs.2]

lemma numberedOk_applyAttempts (today : String) (attempts : List Attempt) :
    ∀ s : Session, numberedOk s → numberedOk (applyAttempts today attempts s) := by
  induction attempts with
  | nil => exact fun s hs => hs
  | cons a attempts ih =>
    intro s hs
    have hstep : applyAttempts today (a :: attempts) s
        = applyAttempts today attempts
            (addRound a.date today a.mode a.host a.friends a.bid a.opponentScore s) := rfl
    rw [hstep]
    exact ih _ (numberedOk_addRound _ _ _ _ _ _ _ s hs)

/-- C5: on a fresh session, any sequence of form submissions — valid or
rejected, in any interleaving — leaves the recorded rounds numbered
exactly `1, …, N` in order with the counter at `N + 1`; moreover each
single submission either leaves the state (and hence the counter)
untouched, or consumes exactly one round number. -/
theorem round_numbering (today : String) (ps : List String) (attempts : List Attempt) :
    ((applyAttempts today attempts (freshSession ps)).rounds.map Round.round
        = List.range' 1 (applyAttempts today attempts (freshSession ps)).rounds.length)
    ∧ ((applyAttempts today attempts (freshSession ps)).currentRound
        = (applyAttempts today attempts (freshSession ps)).rounds.length + 1)
    ∧ ∀ (a : Attempt) (s : Session),
        addRound a.date today a.mode a.host a.friends a.bid a.opponentScore s = s
          ∨ ((addRound a.date today a.mode a.host a.friends a.bid a.opponentScore s).rounds.length
                = s.rounds.length + 1
              ∧ (addRound a.date today a.mode a.host a.friends a.bid a.opponentScore s).currentRound
                = s.currentRound + 1) := by
  have hfresh : numberedOk (freshSession ps) := by
    constructor
    · rfl
    · rfl
  have hmain := numberedOk_applyAttempts today attempts (freshSession ps) hfresh
  refine ⟨hmain.1, hmain.2, ?_⟩
  intro a s
  rcases addRound_step a.date today a.mode a.host a.friends a.bid a.opponentScore s with
    h | ⟨hmap, hcr⟩
  · exact Or.inl h
  · refine Or.inr ⟨?_, hcr⟩
    have := congrArg List.length hmap
    simpa using this

/-- C9: renaming one roster slot changes only that slot: every previously
recorded round — its players snapshot, host, friends, and scores map —
is untouched, as are the rounds list and the round counter. -/
theorem rename_frame (s : Session) (idx : Nat) (name : String)
    (h : idx < s.players.length) :
    (onRename s idx name).rounds = s.rounds
    ∧ (onRename s idx name).currentRound = s.currentRound
    ∧ (onRename s idx name).players.length = s.players.length
    ∧ (onRename s idx name).players.getD idx "" = name
    ∧ ∀ j, j ≠ idx → (onRename s idx name).players.getD j "" = s.players.getD j "" := by
  refine ⟨rfl, rfl, by simp [onRename], ?_, ?_⟩
  · simp [onRename, List.getD_eq_getElem?_getD, List.getElem?_set_self h]
  · intro j hj
    simp [onRename, List.getD_eq_getElem?_getD, List.getElem?_set_ne (fun hh => hj hh.symm)]

/-- C9 witness: renaming slot 2 of the default roster in a session with no
rounds. -/
theorem rename_frame_witness :
    (2 < (freshSession defaultPlayers).players.length)
    ∧ ((onRename (freshSession defaultPlayers) 2 "Carol").rounds
          = (freshSession defaultPlayers).rounds
        ∧ (onRename (freshSession defaultPlayers) 2 "Carol").players.getD 2 "" = "Carol"
        ∧ (onRename (freshSession defaultPlayers) 2 "Carol").players.getD 0 ""
          = (freshSession defaultPlayers).players.getD 0 "") :=
  ⟨by decide,
    (rename_frame (freshSession defaultPlayers) 2 "Carol" (by decide)).1,
    (rename_frame (freshSession defaultPlayers) 2 "Carol" (by decide)).2.2.2.1,
    (rename_frame (freshSession defaultPlayers) 2 "Carol" (by decide)).2.2.2.2 0 (by decide)⟩

/-- Head of a sorted filtered list: empty exactly when nothing qualifies,
and otherwise an element that qualifies and beats every qualifier. -/
lemma head?_sort_filter {α : Type} (r : α → α → Prop) [DecidableRel r]
    [IsTotal α r] [IsTrans α r] (l : List α) (q : α → Bool) :
    (((List.insertionSort r (l.filter q)).head? = none) ↔ ∀ e ∈ l, ¬ q e)
    ∧ ∀ e0, (List.insertionSort r (l.filter q)).head? = some e0 →
        e0 ∈ l ∧ q e0 ∧ ∀ e ∈ l, q e → r e0 e := by
  constructor
  · rw [List.head?_eq_none_iff]
    constructor
    · intro h e he hq
      have hm : e ∈ List.insertionSort r (l.filter q) := by
        rw [List.mem_insertionSort]
        exact List.mem_filter.mpr ⟨he, hq⟩
      rw [h] at hm
      exact absurd hm (List.not_mem_nil e)
    · intro h
      have hnil : l.filter q = [] := List.filter_eq_nil_iff.mpr h
      rw [hnil]
      rfl
  · intro e0 h0
    obtain ⟨t, ht⟩ : ∃ t, List.insertionSort r (l.filter q) = e0 :: t := by
      cases hs : List.insertionSort r (l.filter q) with
      | nil =>
        rw [hs] at h0
        cases h0
      | cons a t =>
        rw [hs] at h0
        cases h0
        exact ⟨t, rfl⟩
    have hmem : e0 ∈ l.filter q := by
      rw [← List.mem_insertionSort (r := r), ht]
      exact List.mem_cons_self _ _
    have hsorted := List.sorted_insertionSort r (l.filter q)
    rw [ht, List.sorted_cons] at hsorted
    refine ⟨(List.mem_filter.mp hmem).1, (List.mem_filter.mp hmem).2, ?_⟩
    intro e he hq
    have he' : e ∈ e0 :: t := by
      rw [← ht, List.mem_insertionSort]
      exact List.mem_filter.mpr ⟨he, hq⟩
    rcases List.mem_cons.mp he' with h | h
    · rw [h]
      exact (IsTotal.total (r := r) e0 e0).elim id id
    · exact hsorted.1 e h

/-- C8: `bestHost` is a highest-`hostRate` entry among those with
`hosted ≥ 3`, and is `none` exactly when no entry qualifies; `bestFriend`
is the analogue with `friendGames ≥ 3` and `friendRate`. -/
theorem best_host_best_friend (gameData : List (String × Session)) (players : List String) :
    ((enhancedStats gameData players).bestHost = none ↔
        ∀ e ∈ (enhancedStats gameData players).playerRankings, ¬ 3 ≤ e.hosted)
    ∧ (∀ e0, (enhancedStats gameData players).bestHost = some e0 →
        e0 ∈ (enhancedStats gameData players).playerRankings ∧ 3 ≤ e0.hosted
        ∧ ∀ e ∈ (enhancedStats gameData players).playerRankings, 3 ≤ e.hosted →
            e.hostRate ≤ e0.hostRate)
    ∧ ((enhancedStats gameData players).bestFriend = none ↔
        ∀ e ∈ (enhancedStats gameData players).playerRankings, ¬ 3 ≤ e.friendGames)
    ∧ (∀ e0, (enhancedStats gameData players).bestFriend = some e0 →
        e0 ∈ (enhancedStats gameData players).playerRankings ∧ 3 ≤ e0.friendGames
        ∧ ∀ e ∈ (enhancedStats gameData players).playerRankings, 3 ≤ e.friendGames →
            e.friendRate ≤ e0.friendRate) := by
  simp only [enhancedStats]
  have hH := head?_sort_filter byHostRateDesc
    (List.insertionSort byTotalDesc
      (((allRounds gameData).foldl processRound (initStats players)).map
        (fun e => mkRankEntry e.1 e.2)))
    (fun p => decide (p.hosted ≥ 3))
  have hF := head?_sort_filter byFriendRateDesc
    (List.insertionSort byTotalDesc
      (((allRounds gameData).foldl processRound (initStats players)).map
        (fun e => mkRankEntry e.1 e.2)))
    (fun p => decide (p.friendGames ≥ 3))
  refine ⟨?_, ?_, ?_, ?_⟩
  · rw [hH.1]
    constructor
    · intro h e he
      have := h e (by rw [← List.mem_insertionSort (r := byGamesDesc)]; exact he)
      simpa using this
    · intro h e he
      have := h e ((List.mem_insertionSort (r := byGamesDesc)).mpr he)
      simpa using this
  · intro e0 h0
    obtain ⟨hm, hq, hmax⟩ := hH.2 e0 h0
    refine ⟨(List.mem_insertionSort (r := byGamesDesc)).mpr hm, by simpa using hq, ?_⟩
    intro e he hqe
    have := hmax e (by rw [← List.mem_insertionSort (r := byGamesDesc)]; exact he)
      (by simpa using hqe)
    exact this
  · rw [hF.1]
    constructor
    · intro h e he
      have := h e (by rw [← List.mem_insertionSort (r := byGamesDesc)]; exact he)
      simpa using this
    · intro h e he
      have := h e ((List.mem_insertionSort (r := byGamesDesc)).mpr he)
      simpa using this
  · intro e0 h0
    obtain ⟨hm, hq, hmax⟩ := hF.2 e0 h0
    refine ⟨(List.mem_insertionSort (r := byGamesDesc)).mpr hm, by simpa using hq, ?_⟩
    intro e he hqe
    have := hmax e (by rw [← List.mem_insertionSort (r := byGamesDesc)]; exact he)
      (by simpa using hqe)
    exact this

/-- C8 witness: with no recorded rounds, nobody reaches the three-game
qualification threshold and both superlatives are undefined. -/
theorem best_host_best_friend_witness :
    (enhancedStats [] ["A"]).bestHost = none
    ∧ (enhancedStats [] ["A"]).bestFriend = none :=
  ⟨(best_host_best_friend [] ["A"]).1.mpr (by decide),
    (best_host_best_friend [] ["A"]).2.2.1.mpr (by decide)⟩

/-! ### Hosted-counter accounting for the statistics loop -/

lemma keyHosted_statUpd_pres (m : List (String × PStats)) (k : String)
    (f : PStats → PStats) (hf : ∀ st, (f st).hosted = st.hosted) :
    (statUpd m k f).map (fun e => (e.1, e.2.hosted))
      = m.map (fun e => (e.1, e.2.hosted)) := by
  induction m with
  | nil => rfl
  | cons e m ih =>
    rw [show statUpd (e :: m) k f
        = (if e.1 = k then (e.1, f e.2) else e) :: statUpd m k f from rfl]
    rw [List.map_cons, List.map_cons, ih]
    congr 1
    by_cases he : e.1 = k
    · rw [if_pos he]
      simp [hf]
    · rw [if_neg he]

lemma keyHosted_foldl_pres {γ : Type} (key : γ → String) (fn : γ → PStats → PStats)
    (hf : ∀ x st, (fn x st).hosted = st.hosted) (xs : List γ) :
    ∀ m : List (String × PStats),
      ((xs.foldl (fun m x => statUpd m (key x) (fn x)) m).map (fun e => (e.1, e.2.hosted)))
        = m.map (fun e => (e.1, e.2.hosted)) := by
  induction xs with
  | nil => exact fun m => rfl
  | cons x xs ih =>
    intro m
    rw [List.foldl_cons, ih (statUpd m (key x) (fn x)),
      keyHosted_statUpd_pres m (key x) (fn x) (hf x)]

lemma keyHosted_statUpd_host (m : List (String × PStats)) (k : String)
    (f : PStats → PStats) (hf : ∀ st, (f st).hosted = st.hosted + 1) :
    (statUpd m k f).map (fun e => (e.1, e.2.hosted))
      = m.map (fun e => (e.1, if e.1 = k then e.2.hosted + 1 else e.2.hosted)) := by
  induction m with
  | nil => rfl
  | cons e m ih =>
    rw [show statUpd (e :: m) k f
        = (if e.1 = k then (e.1, f e.2) else e) :: statUpd m k f from rfl]
    rw [List.map_cons, List.map_cons, ih]
    congr 1
    by_cases he : e.1 = k
    · rw [if_pos he, if_pos he]
      simp [hf]
    · rw [if_neg he, if_neg he]

/-- Processing one round increments the hosted counter of exactly the
entries keyed by the round's host (by one), and no other counter. -/
lemma keyHosted_processRound (m : List (String × PStats)) (r : Round) :
    (processRound m r).map (fun e => (e.1, e.2.hosted))
      = m.map (fun e => (e.1, if e.1 = r.host then e.2.hosted + 1 else e.2.hosted)) := by
  simp only [processRound]
  rw [keyHosted_foldl_pres (fun f => f)
    (fun _ => fun st =>
      { st with
        friendGames := st.friendGames + 1
        friendWins := st.friendWins +
          (if r.winner = "Host" ∨ r.winner = "Host Team" then 1 else 0) })
    (fun _ _ => rfl) r.friends]
  rw [keyHosted_statUpd_host _ r.host _ (fun _ => rfl)]
  have hcomp : (fun e : String × PStats =>
      (e.1, if e.1 = r.host then e.2.hosted + 1 else e.2.hosted))
      = (fun kh : String × ℕ => (kh.1, if kh.1 = r.host then kh.2 + 1 else kh.2))
        ∘ (fun e : String × PStats => (e.1, e.2.hosted)) := rfl
  rw [hcomp, ← List.map_map, ← List.map_map]
  rw [keyHosted_foldl_pres Prod.fst
    (fun x => fun st => { st with totalScore := st.totalScore + x.2 })
    (fun _ _ => rfl) r.scores]
  rw [keyHosted_foldl_pres (fun p => p)
    (fun _ => fun st => { st with gamesPlayed := st.gamesPlayed + 1 })
    (fun _ _ => rfl) r.players]

lemma keys_processRound (m : List (String × PStats)) (r : Round) :
    (processRound m r).map Prod.fst = m.map Prod.fst := by
  have h := congrArg (List.map Prod.fst) (keyHosted_processRound m r)
  rw [List.map_map, List.map_map] at h
  exact h

lemma sum_ite_hosted (m : List (String × PStats)) (k : String) :
    (m.map (fun e => if e.1 = k then e.2.hosted + 1 else e.2.hosted)).sum
      = (m.map (fun e => e.2.hosted)).sum + ((m.map Prod.fst).count k) := by
  induction m with
  | nil => rfl
  | cons e m ih =>
    by_cases he : e.1 = k
    · simp only [List.map_cons, List.sum_cons, ih, List.count_cons, he]
      simp
      omega
    · simp only [List.map_cons, List.sum_cons, ih, List.count_cons, he]
      simp [he]
      omega

lemma sum_hosted_processRound (m : List (String × PStats)) (r : Round)
    (hnd : (m.map Prod.fst).Nodup) (hmem : r.host ∈ m.map Prod.fst) :
    ((processRound m r).map (fun e => e.2.hosted)).sum
      = ((m.map (fun e => e.2.hosted)).sum) + 1 := by
  have h := congrArg (List.map Prod.snd) (keyHosted_processRound m r)
  rw [List.map_map, List.map_map] at h
  have h' : (processRound m r).map (fun e => e.2.hosted)
      = m.map (fun e => if e.1 = r.host then e.2.hosted + 1 else e.2.hosted) := h
  rw [h', sum_ite_hosted m r.host, List.count_eq_one_of_mem hnd hmem]

lemma sum_hosted_foldl (rounds : List Round) :
    ∀ m : List (String × PStats), (m.map Prod.fst).Nodup →
      (∀ r ∈ rounds, r.host ∈ m.map Prod.fst) →
      (((rounds.foldl processRound m).map (fun e => e.2.hosted)).sum)
        = (m.map (fun e => e.2.hosted)).sum + rounds.length := by
  induction rounds with
  | nil => exact fun m _ _ => rfl
  | cons r rounds ih =>
    intro m hnd hmem
    rw [List.foldl_cons]
    have hk := keys_processRound m r
    rw [ih (processRound m r) (hk ▸ hnd)
      (fun r' hr' => hk ▸ hmem r' (List.mem_cons_of_mem r hr'))]
    rw [sum_hosted_processRound m r hnd (hmem r (List.mem_cons_self r rounds))]
    rw [List.length_cons]
    omega

lemma any_key_iff {β : Type} (m : List (String × β)) (k : String) :
    (m.any (fun e => decide (e.1 = k))) = true ↔ k ∈ m.map Prod.fst := by
  rw [List.any_eq_true, List.mem_map]
  constructor
  · rintro ⟨e, he, hk⟩
    exact ⟨e, he, by simpa using hk⟩
  · rintro ⟨e, he, hk⟩
    exact ⟨e, he, by simpa using hk⟩

lemma keys_objSet_of_key {β : Type} (m : List (String × β)) (k : String) (v : β)
    (h : m.any (fun e => decide (e.1 = k)) = true) :
    (objSet m k v).map Prod.fst = m.map Prod.fst := by
  rw [objSet_of_key m k v h, List.map_map]
  apply List.map_congr_left
  intro e _
  by_cases he : e.1 = k
  · simp [he]
  · simp [he]

lemma keys_objSet_of_not_key {β : Type} (m : List (String × β)) (k : String) (v : β)
    (h : m.any (fun e => decide (e.1 = k)) = false) :
    (objSet m k v).map Prod.fst = m.map Prod.fst ++ [k] := by
  rw [objSet_of_not_key m k v h, List.map_append]
  rfl

lemma initStats_foldl_keys (ps : List String) :
    ∀ acc : List (String × PStats), ((acc.map Prod.fst).Nodup) →
      (((ps.foldl (fun a p => objSet a p pstatsZero) acc).map Prod.fst).Nodup
        ∧ ∀ k, k ∈ (ps.foldl (fun a p => objSet a p pstatsZero) acc).map Prod.fst
            ↔ (k ∈ acc.map Prod.fst ∨ k ∈ ps)) := by
  induction ps with
  | nil =>
    intro acc hnd
    exact ⟨hnd, fun k => by simp⟩
  | cons p ps ih =>
    intro acc hnd
    rw [List.foldl_cons]
    by_cases hp : acc.any (fun e => decide (e.1 = p)) = true
    · have hkeys := keys_objSet_of_key acc p pstatsZero hp
      obtain ⟨h1, h2⟩ := ih (objSet acc p pstatsZero) (hkeys ▸ hnd)
      refine ⟨h1, fun k => ?_⟩
      rw [h2 k, hkeys]
      constructor
      · rintro (h | h)
        · exact Or.inl h
        · exact Or.inr (List.mem_cons_of_mem p h)
      · rintro (h | h)
        · exact Or.inl h
        · rcases List.mem_cons.mp h with h | h
          · subst h
            exact Or.inl ((any_key_iff acc k).mp hp)
          · exact Or.inr h
    · have hp' : acc.any (fun e => decide (e.1 = p)) = false := by
        exact Bool.eq_false_iff.mpr hp
      have hkeys := keys_objSet_of_not_key acc p pstatsZero hp'
      have hpnot : p ∉ acc.map Prod.fst := fun hmem =>
        hp ((any_key_iff acc p).mpr hmem)
      have hnd' : ((objSet acc p pstatsZero).map Prod.fst).Nodup := by
        rw [hkeys]
        simp [List.nodup_append, hnd, hpnot]
      obtain ⟨h1, h2⟩ := ih (objSet acc p pstatsZero) hnd'
      refine ⟨h1, fun k => ?_⟩
      rw [h2 k, hkeys]
      constructor
      · rintro (h | h)
        · rcases List.mem_append.mp h with h | h
          · exact Or.inl h
          · simp at h
            rw [h]
            exact Or.inr (List.mem_cons_self p ps)
        · exact Or.inr (List.mem_cons_of_mem p h)
      · rintro (h | h)
        · exact Or.inl (List.mem_append.mpr (Or.inl h))
        · rcases List.mem_cons.mp h with h | h
          · subst h
            exact Or.inl (List.mem_append.mpr (Or.inr (by simp)))
          · exact Or.inr h

lemma initStats_keys_nodup (ps : List String) :
    ((initStats ps).map Prod.fst).Nodup :=
  (initStats_foldl_keys ps [] (by simp)).1

lemma initStats_keys_mem (ps : List String) (k : String) :
    k ∈ (initStats ps).map Prod.fst ↔ k ∈ ps := by
  show k ∈ (ps.foldl (fun a p => objSet a p pstatsZero) []).map Prod.fst ↔ k ∈ ps
  rw [(initStats_foldl_keys ps [] (by simp)).2 k]
  simp

lemma initStats_values (ps : List String) :
    ∀ e ∈ initStats ps, e.2 = pstatsZero := by
  have haux : ∀ (qs : List String) (acc : List (String × PStats)),
      (∀ e ∈ acc, e.2 = pstatsZero) →
      ∀ e ∈ qs.foldl (fun a p => objSet a p pstatsZero) acc, e.2 = pstatsZero := by
    intro qs
    induction qs with
    | nil => exact fun acc h => h
    | cons p qs ih =>
      intro acc hacc
      rw [List.foldl_cons]
      apply ih
      intro e he
      by_cases hp : acc.any (fun e => decide (e.1 = p)) = true
      · rw [objSet_of_key acc p pstatsZero hp] at he
        obtain ⟨e', he', hmap⟩ := List.mem_map.mp he
        by_cases h' : e'.1 = p
        · rw [if_pos h'] at hmap
          rw [← hmap]
        · rw [if_neg h'] at hmap
          rw [← hmap]
          exact hacc e' he'
      · rw [objSet_of_not_key acc p pstatsZero (Bool.eq_false_iff.mpr hp)] at he
        rcases List.mem_append.mp he with h | h
        · exact hacc e h
        · simp at h
          rw [h]
  exact haux ps [] (by simp)

/-- C7 (amended): provided every aggregated round's host is on the roster
used for aggregation, the hosted counters over all ranking entries sum to
the number of rounds; and round-by-round, processing a round increments
the hosted counter of exactly the entries keyed by that round's host, by
one, leaving every other hosted counter unchanged. -/
theorem hosted_consistency (gameData : List (String × Session)) (players : List String)
    (hhost : ∀ r ∈ allRounds gameData, r.host ∈ players) :
    ((((enhancedStats gameData players).playerRankings.map RankEntry.hosted).sum)
        = (enhancedStats gameData players).totalRounds)
    ∧ ∀ (m : List (String × PStats)) (r : Round),
        (processRound m r).map (fun e => (e.1, e.2.hosted))
          = m.map (fun e => (e.1, if e.1 = r.host then e.2.hosted + 1 else e.2.hosted)) := by
  refine ⟨?_, keyHosted_processRound⟩
  simp only [enhancedStats]
  have hperm : List.Perm
      (List.insertionSort byGamesDesc
        (List.insertionSort byTotalDesc
          (((allRounds gameData).foldl processRound (initStats players)).map
            (fun e => mkRankEntry e.1 e.2))))
      (((allRounds gameData).foldl processRound (initStats players)).map
        (fun e => mkRankEntry e.1 e.2)) :=
    (List.perm_insertionSort _ _).trans (List.perm_insertionSort _ _)
  rw [(hperm.map RankEntry.hosted).sum_eq]
  have hfact : (((allRounds gameData).foldl processRound (initStats players)).map
      (fun e => mkRankEntry e.1 e.2)).map RankEntry.hosted
      = ((allRounds gameData).foldl processRound (initStats players)).map
          (fun e => e.2.hosted) := by
    rw [List.map_map]
    rfl
  rw [hfact]
  rw [sum_hosted_foldl (allRounds gameData) (initStats players)
    (initStats_keys_nodup players)
    (fun r hr => (initStats_keys_mem players r.host).mpr (hhost r hr))]
  have hzero : ((initStats players).map (fun e => e.2.hosted)).sum = 0 := by
    apply List.sum_eq_zero
    intro x hx
    obtain ⟨e, he, hxe⟩ := List.mem_map.mp hx
    rw [← hxe, initStats_values players e he]
    rfl
  rw [hzero]
  omega

/-- C7 witness: a single session with one round hosted by a roster member. -/
theorem hosted_consistency_witness :
    (∀ r ∈ allRounds [("Sat Oct 11 2025",
        ({ players := rosterNew, rounds := [roundNewWin], currentRound := 2 } : Session))],
      r.host ∈ rosterNew)
    ∧ (((enhancedStats [("Sat Oct 11 2025",
          ({ players := rosterNew, rounds := [roundNewWin], currentRound := 2 } : Session))]
          rosterNew).playerRankings.map RankEntry.hosted).sum
        = (enhancedStats [("Sat Oct 11 2025",
            ({ players := rosterNew, rounds := [roundNewWin], currentRound := 2 } : Session))]
            rosterNew).totalRounds) :=
  ⟨by decide,
    (hosted_consistency [("Sat Oct 11 2025",
      ({ players := rosterNew, rounds := [roundNewWin], currentRound := 2 } : Session))]
      rosterNew (by decide)).1⟩

/-- Concrete evaluation of the rankings at the two-session scenario `gdC`:
the returned `playerRankings` ends up ordered by games played, because the
`.sort(...)` call computing `mostGamesPlayed` (App.jsx line 178) re-sorts
the same array in place after the total-score sort. -/
lemma playerRankings_gdC :
    (enhancedStats gdC rosterNew).playerRankings
      = [⟨"Player 2", 0, 3, 0, 0, 0, 0, 0, 0⟩, ⟨"Player 3", 0, 3, 0, 0, 0, 0, 0, 0⟩,
         ⟨"Player 4", 0, 3, 0, 0, 0, 0, 0, 0⟩, ⟨"Player 5", 0, 3, 0, 0, 0, 0, 0, 0⟩,
         ⟨"Player 6", 0, 3, 0, 0, 0, 0, 0, 0⟩, ⟨"Alice", 400, 1, 1, 1, 100, 0, 0, 0⟩] := by
  have h1 : (allRounds gdC).foldl processRound (initStats rosterNew)
      = [("Alice", ⟨400, 1, 1, 1, 0, 0⟩), ("Player 2", ⟨0, 3, 0, 0, 0, 0⟩),
         ("Player 3", ⟨0, 3, 0, 0, 0, 0⟩), ("Player 4", ⟨0, 3, 0, 0, 0, 0⟩),
         ("Player 5", ⟨0, 3, 0, 0, 0, 0⟩), ("Player 6", ⟨0, 3, 0, 0, 0, 0⟩)] := by
    simp [gdC, allRounds, roundOldWin, roundNewWin, rosterOld, rosterNew, defaultPlayers,
      calculateScores, objFromEntries, objSet, setAll, initStats, pstatsZero, processRound,
      statUpd, jsRound]
  have h2 : ([("Alice", (⟨400, 1, 1, 1, 0, 0⟩ : PStats)), ("Player 2", ⟨0, 3, 0, 0, 0, 0⟩),
         ("Player 3", ⟨0, 3, 0, 0, 0, 0⟩), ("Player 4", ⟨0, 3, 0, 0, 0, 0⟩),
         ("Player 5", ⟨0, 3, 0, 0, 0, 0⟩), ("Player 6", ⟨0, 3, 0, 0, 0, 0⟩)]).map
        (fun e => mkRankEntry e.1 e.2)
      = [⟨"Alice", 400, 1, 1, 1, 100, 0, 0, 0⟩, ⟨"Player 2", 0, 3, 0, 0, 0, 0, 0, 0⟩,
         ⟨"Player 3", 0, 3, 0, 0, 0, 0, 0, 0⟩, ⟨"Player 4", 0, 3, 0, 0, 0, 0, 0, 0⟩,
         ⟨"Player 5", 0, 3, 0, 0, 0, 0, 0, 0⟩, ⟨"Player 6", 0, 3, 0, 0, 0, 0, 0, 0⟩] := by
    norm_num [mkRankEntry, jsRound]
  have h3 : List.insertionSort byGamesDesc (List.insertionSort byTotalDesc
      [(⟨"Alice", 400, 1, 1, 1, 100, 0, 0, 0⟩ : RankEntry), ⟨"Player 2", 0, 3, 0, 0, 0, 0, 0, 0⟩,
       ⟨"Player 3", 0, 3, 0, 0, 0, 0, 0, 0⟩, ⟨"Player 4", 0, 3, 0, 0, 0, 0, 0, 0⟩,
       ⟨"Player 5", 0, 3, 0, 0, 0, 0, 0, 0⟩, ⟨"Player 6", 0, 3, 0, 0, 0, 0, 0, 0⟩])
      = [⟨"Player 2", 0, 3, 0, 0, 0, 0, 0, 0⟩, ⟨"Player 3", 0, 3, 0, 0, 0, 0, 0, 0⟩,
         ⟨"Player 4", 0, 3, 0, 0, 0, 0, 0, 0⟩, ⟨"Player 5", 0, 3, 0, 0, 0, 0, 0, 0⟩,
         ⟨"Player 6", 0, 3, 0, 0, 0, 0, 0, 0⟩, ⟨"Alice", 400, 1, 1, 1, 100, 0, 0, 0⟩] := by
    decide
  show List.insertionSort byGamesDesc (List.insertionSort byTotalDesc
      (((allRounds gdC).foldl processRound (initStats rosterNew)).map
        (fun e => mkRankEntry e.1 e.2))) = _
  rw [h1, h2, h3]

/-- C6: the returned `playerRankings` sequence is NOT sorted descending by
`totalScore` in general.  At the reachable state `gdC` (an older session
whose rounds were hosted and won by `Player 1`, and a current session whose
roster renamed slot 0 to `Alice` with one round won by `Alice`), the
returned sequence carries total scores `0, 0, 0, 0, 0, 400`: the in-place
`.sort` computing `mostGamesPlayed` (App.jsx line 178) has re-ordered the
array by games played. -/
theorem playerRankings_not_sorted_by_totalScore :
    ¬ List.Sorted byTotalDesc (enhancedStats gdC rosterNew).playerRankings := by
  rw [playerRankings_gdC]
  intro h
  have h01 := List.rel_of_sorted_cons h ⟨"Alice", 400, 1, 1, 1, 100, 0, 0, 0⟩ (by simp)
  have : (400 : ℤ) ≤ 0 := h01
  omega

/-- C7 counterexample: at the same state `gdC`, 3 rounds were aggregated but
the hosted counters sum to 1 — the two rounds hosted by `Player 1`, a name
absent from the current roster, increment nobody's counter. -/
theorem hosted_sum_counterexample :
    ¬ (((enhancedStats gdC rosterNew).playerRankings.map RankEntry.hosted).sum
        = (enhancedStats gdC rosterNew).totalRounds) := by
  intro h
  rw [playerRankings_gdC] at h
  have htr : (enhancedStats gdC rosterNew).totalRounds = 3 := by
    show (allRounds gdC).length = 3
    rfl
  rw [htr] at h
  simp at h

end FindingFriends
